import Mathlib

/-!
Verification development for the football-tracker annotation platform.

The repository's `src/` tree contains the React frontend (components,
pages, services, types).  The backend engine described by the spec —
the homography/geometry module, the calibration manager, the
event/track matcher and the accuracy aggregator — is not part of the
provided sources (only its TypeScript data contracts and its HTTP
callers are), so those components are modelled here from the spec, as
marked in the individual doc comments.  Frontend logic (EventList
filtering/sorting, TrackEditor/EventEditor update payloads,
VideoPlayer frame stepping) is embedded directly from the TypeScript
sources.

All arithmetic is over `ℚ` (the spec's doubles idealised as exact
rationals), so "within floating-point tolerance" statements become
exact equalities.
-/

namespace FootballTracker

/-! ## Geometry / homography module (modelled from the spec, §4.1) -/

/-- A planar point with rational coordinates. -/
structure Pt where
  x : ℚ
  y : ℚ
deriving DecidableEq, Repr

/-- Squared Euclidean distance between two points. -/
def sqDist (p q : Pt) : ℚ :=
  (p.x - q.x) ^ 2 + (p.y - q.y) ^ 2

/-- A 3×3 rational matrix, row major. -/
structure Mat3 where
  m00 : ℚ
  m01 : ℚ
  m02 : ℚ
  m10 : ℚ
  m11 : ℚ
  m12 : ℚ
  m20 : ℚ
  m21 : ℚ
  m22 : ℚ
deriving DecidableEq, Repr

/-- Determinant of a 3×3 matrix. -/
def Mat3.det (A : Mat3) : ℚ :=
  A.m00 * (A.m11 * A.m22 - A.m12 * A.m21)
    - A.m01 * (A.m10 * A.m22 - A.m12 * A.m20)
    + A.m02 * (A.m10 * A.m21 - A.m11 * A.m20)

/-- Adjugate (classical adjoint) of a 3×3 matrix. -/
def Mat3.adjugate (A : Mat3) : Mat3 where
  m00 := A.m11 * A.m22 - A.m12 * A.m21
  m01 := -(A.m01 * A.m22 - A.m02 * A.m21)
  m02 := A.m01 * A.m12 - A.m02 * A.m11
  m10 := -(A.m10 * A.m22 - A.m12 * A.m20)
  m11 := A.m00 * A.m22 - A.m02 * A.m20
  m12 := -(A.m00 * A.m12 - A.m02 * A.m10)
  m20 := A.m10 * A.m21 - A.m11 * A.m20
  m21 := -(A.m00 * A.m21 - A.m01 * A.m20)
  m22 := A.m00 * A.m11 - A.m01 * A.m10

/-- Multiply every entry of a matrix by a scalar. -/
def Mat3.scaleBy (k : ℚ) (A : Mat3) : Mat3 where
  m00 := k * A.m00
  m01 := k * A.m01
  m02 := k * A.m02
  m10 := k * A.m10
  m11 := k * A.m11
  m12 := k * A.m12
  m20 := k * A.m20
  m21 := k * A.m21
  m22 := k * A.m22

/-- Matrix inverse, as adjugate over determinant (meaningful only when
the determinant is nonzero; the solver checks that before using it). -/
def Mat3.inv (A : Mat3) : Mat3 :=
  Mat3.scaleBy (1 / A.det) A.adjugate

/-- Apply a homography to a point in homogeneous coordinates,
dehomogenising at the end; `none` when the point maps to infinity. -/
def applyHom (A : Mat3) (p : Pt) : Option Pt :=
  if A.m20 * p.x + A.m21 * p.y + A.m22 = 0 then none
  else some ⟨(A.m00 * p.x + A.m01 * p.y + A.m02) /
               (A.m20 * p.x + A.m21 * p.y + A.m22),
             (A.m10 * p.x + A.m11 * p.y + A.m12) /
               (A.m20 * p.x + A.m21 * p.y + A.m22)⟩

theorem applyHom_eq_some_iff {A : Mat3} {p q : Pt} :
    applyHom A p = some q ↔
      (A.m20 * p.x + A.m21 * p.y + A.m22 ≠ 0 ∧
       q.x = (A.m00 * p.x + A.m01 * p.y + A.m02) /
         (A.m20 * p.x + A.m21 * p.y + A.m22) ∧
       q.y = (A.m10 * p.x + A.m11 * p.y + A.m12) /
         (A.m20 * p.x + A.m21 * p.y + A.m22)) := by
  unfold applyHom
  split
  · simp_all
  · constructor
    · rintro h
      obtain ⟨hx, hy⟩ := Pt.mk.injEq .. ▸ (Option.some.inj h)
      exact ⟨by assumption, hx.symm, hy.symm⟩
    · rintro ⟨-, hx, hy⟩
      obtain ⟨qx, qy⟩ := q
      simp_all

/-- Scaling a matrix by a nonzero factor does not change its projective
action. -/
theorem applyHom_scaleBy {k : ℚ} (hk : k ≠ 0) (A : Mat3) (p : Pt) :
    applyHom (Mat3.scaleBy k A) p = applyHom A p := by
  unfold applyHom Mat3.scaleBy
  simp only
  have hden : k * A.m20 * p.x + k * A.m21 * p.y + k * A.m22
      = k * (A.m20 * p.x + A.m21 * p.y + A.m22) := by ring
  rw [hden]
  by_cases h : A.m20 * p.x + A.m21 * p.y + A.m22 = 0
  · rw [h, mul_zero]; simp
  · rw [if_neg (mul_ne_zero hk h), if_neg h]
    have e1 : k * A.m00 * p.x + k * A.m01 * p.y + k * A.m02
        = k * (A.m00 * p.x + A.m01 * p.y + A.m02) := by ring
    have e2 : k * A.m10 * p.x + k * A.m11 * p.y + k * A.m12
        = k * (A.m10 * p.x + A.m11 * p.y + A.m12) := by ring
    rw [e1, e2, mul_div_mul_left _ _ hk, mul_div_mul_left _ _ hk]

theorem adjRow0 (A : Mat3) (x y : ℚ) :
    A.m00 * (A.adjugate.m00 * x + A.adjugate.m01 * y + A.adjugate.m02)
      + A.m01 * (A.adjugate.m10 * x + A.adjugate.m11 * y + A.adjugate.m12)
      + A.m02 * (A.adjugate.m20 * x + A.adjugate.m21 * y + A.adjugate.m22)
      = A.det * x := by
  simp only [Mat3.adjugate, Mat3.det]; ring

theorem adjRow1 (A : Mat3) (x y : ℚ) :
    A.m10 * (A.adjugate.m00 * x + A.adjugate.m01 * y + A.adjugate.m02)
      + A.m11 * (A.adjugate.m10 * x + A.adjugate.m11 * y + A.adjugate.m12)
      + A.m12 * (A.adjugate.m20 * x + A.adjugate.m21 * y + A.adjugate.m22)
      = A.det * y := by
  simp only [Mat3.adjugate, Mat3.det]; ring

theorem adjRow2 (A : Mat3) (x y : ℚ) :
    A.m20 * (A.adjugate.m00 * x + A.adjugate.m01 * y + A.adjugate.m02)
      + A.m21 * (A.adjugate.m10 * x + A.adjugate.m11 * y + A.adjugate.m12)
      + A.m22 * (A.adjugate.m20 * x + A.adjugate.m21 * y + A.adjugate.m22)
      = A.det := by
  simp only [Mat3.adjugate, Mat3.det]; ring

/-- Round trip through a matrix and its adjugate: if the adjugate maps
`p` to a finite point `q`, the matrix maps `q` back to `p` (for a
nonsingular matrix). -/
theorem applyHom_adjugate_roundTrip (A : Mat3) (hA : A.det ≠ 0) (p q : Pt)
    (h : applyHom A.adjugate p = some q) : applyHom A q = some p := by
  rw [applyHom_eq_some_iff] at h
  obtain ⟨hw, hqx, hqy⟩ := h
  rw [applyHom_eq_some_iff]
  have hden : A.m20 * q.x + A.m21 * q.y + A.m22 = A.det /
      (A.adjugate.m20 * p.x + A.adjugate.m21 * p.y + A.adjugate.m22) := by
    rw [hqx, hqy]
    field_simp
    linear_combination adjRow2 A p.x p.y
  have e0 : A.m00 * q.x + A.m01 * q.y + A.m02 = A.det * p.x /
      (A.adjugate.m20 * p.x + A.adjugate.m21 * p.y + A.adjugate.m22) := by
    rw [hqx, hqy]
    field_simp
    linear_combination adjRow0 A p.x p.y
  have e1 : A.m10 * q.x + A.m11 * q.y + A.m12 = A.det * p.y /
      (A.adjugate.m20 * p.x + A.adjugate.m21 * p.y + A.adjugate.m22) := by
    rw [hqx, hqy]
    field_simp
    linear_combination adjRow1 A p.x p.y
  refine ⟨by rw [hden]; exact div_ne_zero hA hw, ?_, ?_⟩
  · rw [e0, hden]
    field_simp
  · rw [e1, hden]
    field_simp

/-- Round trip through a matrix and its adjugate-based inverse: if the
inverse maps `p` to a finite point `q`, the matrix maps `q` back to `p`. -/
theorem applyHom_inv_roundTrip (A : Mat3) (hA : A.det ≠ 0) (p q : Pt)
    (h : applyHom A.inv p = some q) : applyHom A q = some p := by
  apply applyHom_adjugate_roundTrip A hA p q
  rw [← applyHom_scaleBy (one_div_ne_zero hA) A.adjugate p]
  exact h

/-- Three points are collinear when the cross product of the difference
vectors vanishes. -/
def collinear3 (p q r : Pt) : Bool :=
  (q.x - p.x) * (r.y - p.y) - (q.y - p.y) * (r.x - p.x) = 0

/-- Whether some triple of (distinct positions in the) list is
collinear. -/
def hasCollinearTriple : List Pt → Bool
  | [] => false
  | p :: rest =>
    (rest.any fun q => rest.any fun r =>
      q ≠ r && collinear3 p q r) || hasCollinearTriple rest

/-- One pixel↔pitch point correspondence (the coordinate payload of the
`CalibrationPoint` data contract in `types/index.ts`). -/
structure CalibPoint where
  pixel : Pt
  pitch : Pt
deriving DecidableEq, Repr

/-- Dot product of two coefficient lists. -/
def dotQ (a b : List ℚ) : ℚ :=
  (List.zipWith (· * ·) a b).sum

/-- Gaussian elimination over ℚ: solve a linear system given as rows of
`n` coefficients followed by the right-hand side; `none` when the
system is singular.  Used by the homography solver. -/
def gaussSolve : Nat → List (List ℚ) → Option (List ℚ)
  | 0, _ => some []
  | n + 1, rows =>
    match rows.find? (fun r => decide (r.headD 0 ≠ 0)) with
    | none => none
    | some piv =>
      let pv := piv.headD 0
      let pnorm := piv.map (· / pv)
      let rest := (rows.erase piv).map fun r =>
        (List.zipWith (fun a b => a - r.headD 0 * b) r pnorm).tail
      match gaussSolve n rest with
      | none => none
      | some xs =>
        let tl := pnorm.tail
        some ((tl.getLastD 0 - dotQ tl.dropLast xs) :: xs)

/-- The two DLT rows contributed by one correspondence, under the
normalisation `h22 = 1`: eight coefficients and the right-hand side. -/
def dltRows (cp : CalibPoint) : List (List ℚ) :=
  [[cp.pixel.x, cp.pixel.y, 1, 0, 0, 0,
    -cp.pitch.x * cp.pixel.x, -cp.pitch.x * cp.pixel.y, cp.pitch.x],
   [0, 0, 0, cp.pixel.x, cp.pixel.y, 1,
    -cp.pitch.y * cp.pixel.x, -cp.pitch.y * cp.pixel.y, cp.pitch.y]]

/-- Normal equations `AᵀA h = Aᵀb` of the stacked DLT rows: the exact
solve for 4 correspondences and the least-squares solve for more. -/
def normalRows (rows : List (List ℚ)) : List (List ℚ) :=
  (List.range 8).map fun i =>
    (List.range 8).map (fun j => (rows.map fun r => r.getD i 0 * r.getD j 0).sum)
      ++ [(rows.map fun r => r.getD i 0 * r.getD 8 0).sum]

/-- Modelled from the spec: the homography solve of the Geometry module
(§4.1), absent from `src/`.  Solves `pitch ≈ H · pixel` by the direct
linear transform with normalisation `h22 = 1` (exact for 4 points,
least squares via the normal equations for more); `none` when the
linear system is singular. -/
def solveH (pts : List CalibPoint) : Option Mat3 :=
  match gaussSolve 8 (normalRows (pts.flatMap dltRows)) with
  | none => none
  | some h =>
    some ⟨h.getD 0 0, h.getD 1 0, h.getD 2 0,
          h.getD 3 0, h.getD 4 0, h.getD 5 0,
          h.getD 6 0, h.getD 7 0, 1⟩

/-- Sum of squared reprojection errors; `none` when some calibration
point projects to infinity. -/
def sumSqErrs (H : Mat3) : List CalibPoint → Option ℚ
  | [] => some 0
  | cp :: rest =>
    match applyHom H cp.pixel, sumSqErrs H rest with
    | some q, some s => some (sqDist cp.pitch q + s)
    | _, _ => none

/-- Mean squared reprojection error of a homography over the
correspondences (squared distances keep the model inside ℚ). -/
def meanReprojSqErr (H : Mat3) (pts : List CalibPoint) : Option ℚ :=
  (sumSqErrs H pts).map (· / pts.length)

/-- Error taxonomy of the calibration pipeline (spec §7). -/
inductive CalibrationError where
  | tooFewPoints
  | collinearPoints
  | singularMatrix
deriving DecidableEq, Repr

/-- Derived calibration: forward and inverse transforms, reprojection
error and validity flag (the `Calibration` data contract in
`types/index.ts`, with the transforms as 3×3 matrices). -/
structure Calibration where
  H : Mat3
  Hinv : Mat3
  reprojErrSq : ℚ
  isValid : Bool
deriving DecidableEq, Repr

/-- Modelled from the spec: `recompute(points)` of the Calibration
Manager (§4.2), absent from `src/`.  Validates point count and
non-collinearity (on both the pixel and the pitch side), solves `H`,
rejects singular results, and stores `H`, `H⁻¹`, the reprojection
error and the validity flag. -/
def recomputeCalibration (tol : ℚ) (pts : List CalibPoint) :
    Except CalibrationError Calibration :=
  if pts.length < 4 then .error .tooFewPoints
  else if hasCollinearTriple (pts.map CalibPoint.pixel)
      || hasCollinearTriple (pts.map CalibPoint.pitch) then
    .error .collinearPoints
  else
    match solveH pts with
    | none => .error .singularMatrix
    | some H =>
      if H.det = 0 then .error .singularMatrix
      else
        match meanReprojSqErr H pts with
        | none => .error .singularMatrix
        | some err =>
          .ok ⟨H, H.inv, err, decide (err ≤ tol * tol)⟩

/-- Forward transform `pixel_to_pitch` (spec §4.1 Apply, using `H`). -/
def pixel_to_pitch (cal : Calibration) (p : Pt) : Option Pt :=
  applyHom cal.H p

/-- Inverse transform `pitch_to_pixel` (spec §4.1 Apply, using `H⁻¹`). -/
def pitch_to_pixel (cal : Calibration) (p : Pt) : Option Pt :=
  applyHom cal.Hinv p

/-- Keyed store of the current calibration per match (spec §9). -/
def CalibrationStore := List (Nat × Calibration)

/-- Look up the calibration of a match. -/
def storeGet (s : CalibrationStore) (matchId : Nat) : Option Calibration :=
  (s.find? fun e => e.1 == matchId).map Prod.snd

/-- Replace the calibration of a match. -/
def storeSet (s : CalibrationStore) (matchId : Nat) (c : Calibration) :
    CalibrationStore :=
  (matchId, c) :: s.filter fun e => e.1 ≠ matchId

/-- Modelled from the spec: the Calibration Manager recompute entry
point (§4.2, §7), absent from `src/` — a failed recompute reports the
error and leaves the stored calibration for the match untouched; a
successful one replaces it atomically. -/
def managerRecompute (tol : ℚ) (s : CalibrationStore) (matchId : Nat)
    (pts : List CalibPoint) :
    Except CalibrationError Calibration × CalibrationStore :=
  match recomputeCalibration tol pts with
  | .error e => (.error e, s)
  | .ok c => (.ok c, storeSet s matchId c)

theorem recompute_ok_inv {tol : ℚ} {pts : List CalibPoint}
    {cal : Calibration} (h : recomputeCalibration tol pts = .ok cal) :
    cal.H.det ≠ 0 ∧ cal.Hinv = cal.H.inv := by
  unfold recomputeCalibration at h
  split at h
  · exact absurd h (by simp)
  · split at h
    · exact absurd h (by simp)
    · split at h
      · exact absurd h (by simp)
      · rename_i H hH
        split at h
        · exact absurd h (by simp)
        · rename_i hdet
          split at h
          · exact absurd h (by simp)
          · obtain rfl := Except.ok.inj h
            exact ⟨hdet, rfl⟩

/-- C1: for every input point set with fewer than 4 points or with three
or more collinear points, computing the homography fails with a
`CalibrationError` (never silently returning a matrix), and the failed
recompute leaves the previously stored calibration of the match
unchanged. -/
theorem c1_degenerate_fails (tol : ℚ) (s : CalibrationStore) (matchId : Nat)
    (pts : List CalibPoint)
    (hdeg : pts.length < 4
      ∨ hasCollinearTriple (pts.map CalibPoint.pixel) = true
      ∨ hasCollinearTriple (pts.map CalibPoint.pitch) = true) :
    ∃ e, recomputeCalibration tol pts = .error e
      ∧ managerRecompute tol s matchId pts = (.error e, s) := by
  have herr : ∃ e, recomputeCalibration tol pts = .error e := by
    unfold recomputeCalibration
    by_cases h4 : pts.length < 4
    · exact ⟨.tooFewPoints, by rw [if_pos h4]⟩
    · have hcol : (hasCollinearTriple (pts.map CalibPoint.pixel)
          || hasCollinearTriple (pts.map CalibPoint.pitch)) = true := by
        rcases hdeg with h | h | h
        · exact absurd h h4
        · simp [h]
        · simp [h]
      refine ⟨.collinearPoints, ?_⟩
      rw [if_neg h4, if_pos hcol]
  obtain ⟨e, he⟩ := herr
  refine ⟨e, he, ?_⟩
  unfold managerRecompute
  rw [he]

/-- Concrete instantiation: three points (and separately any prior store
entry) trigger the error path and leave the store unchanged. -/
theorem c1_degenerate_fails_witness :
    ([(⟨⟨0, 0⟩, ⟨0, 0⟩⟩ : CalibPoint), ⟨⟨1, 0⟩, ⟨105, 0⟩⟩,
      ⟨⟨0, 1⟩, ⟨0, 68⟩⟩] : List CalibPoint).length < 4
    ∧ ∃ e, recomputeCalibration 1
        [⟨⟨0, 0⟩, ⟨0, 0⟩⟩, ⟨⟨1, 0⟩, ⟨105, 0⟩⟩, ⟨⟨0, 1⟩, ⟨0, 68⟩⟩] = .error e
      ∧ managerRecompute 1 [] 7
        [⟨⟨0, 0⟩, ⟨0, 0⟩⟩, ⟨⟨1, 0⟩, ⟨105, 0⟩⟩, ⟨⟨0, 1⟩, ⟨0, 68⟩⟩] =
          (.error e, []) :=
  ⟨by decide, c1_degenerate_fails 1 [] 7 _ (Or.inl (by decide))⟩

/-- C2: for every calibration solved from 4 non-collinear
correspondences and every point `p` on which the inverse transform is
defined, `pixel_to_pitch (pitch_to_pixel p) = p` — exactly, since the
model computes in ℚ. -/
theorem c2_roundTrip (tol : ℚ) (pts : List CalibPoint) (cal : Calibration)
    (p q : Pt) (_hlen : pts.length = 4)
    (hok : recomputeCalibration tol pts = .ok cal)
    (hfwd : pitch_to_pixel cal p = some q) :
    pixel_to_pitch cal q = some p := by
  obtain ⟨hdet, hinv⟩ := recompute_ok_inv hok
  unfold pixel_to_pitch
  unfold pitch_to_pixel at hfwd
  rw [hinv] at hfwd
  exact applyHom_inv_roundTrip cal.H hdet p q hfwd

/-- The four corners of a 105m×68m pitch seen in a unit pixel square. -/
def cornerPtsW : List CalibPoint :=
  [⟨⟨0, 0⟩, ⟨0, 0⟩⟩, ⟨⟨1, 0⟩, ⟨105, 0⟩⟩, ⟨⟨0, 1⟩, ⟨0, 68⟩⟩,
   ⟨⟨1, 1⟩, ⟨105, 68⟩⟩]

/-- The calibration the solver derives from `cornerPtsW`. -/
def cornerCalW : Calibration :=
  ⟨⟨105, 0, 0, 0, 68, 0, 0, 0, 1⟩,
   ⟨1 / 105, 0, 0, 0, 1 / 68, 0, 0, 0, 1⟩, 0, true⟩

/-- Concrete instantiation of the round-trip law on the corner
calibration at the pitch point (3, 4). -/
theorem c2_roundTrip_witness :
    cornerPtsW.length = 4
    ∧ recomputeCalibration 1 cornerPtsW = .ok cornerCalW
    ∧ pitch_to_pixel cornerCalW ⟨3, 4⟩ = some ⟨1 / 35, 1 / 17⟩
    ∧ pixel_to_pitch cornerCalW ⟨1 / 35, 1 / 17⟩ = some ⟨3, 4⟩ :=
  ⟨rfl,
   by norm_num [recomputeCalibration, hasCollinearTriple, collinear3, solveH,
     normalRows, dltRows, gaussSolve, dotQ, sumSqErrs, meanReprojSqErr,
     applyHom, sqDist, Mat3.inv, Mat3.scaleBy, Mat3.adjugate, Mat3.det,
     cornerPtsW, cornerCalW, List.range_succ],
   by norm_num [pitch_to_pixel, applyHom, cornerCalW],
   c2_roundTrip 1 cornerPtsW cornerCalW ⟨3, 4⟩ ⟨1 / 35, 1 / 17⟩
     rfl
     (by norm_num [recomputeCalibration, hasCollinearTriple, collinear3,
       solveH, normalRows, dltRows, gaussSolve, dotQ, sumSqErrs,
       meanReprojSqErr, applyHom, sqDist, Mat3.inv, Mat3.scaleBy,
       Mat3.adjugate, Mat3.det, cornerPtsW, cornerCalW, List.range_succ])
     (by norm_num [pitch_to_pixel, applyHom, cornerCalW])⟩

/-! ## Event matcher (modelled from the spec, §4.3) -/

/-- The slice of the `Event` data contract (`types/index.ts`) the
matcher consumes: id, half, category and type, start frame, optional
pitch and pixel start locations, and the `is_deleted` flag. -/
structure MEvent where
  id : Nat
  half : Nat
  category : String
  etype : String
  frame : Nat
  pitchPos : Option Pt
  pixelPos : Option Pt
  deleted : Bool
deriving DecidableEq, Repr

/-- Matcher policy constants (spec §4.3 and §9: configurable, not
pinned down by the source): temporal window in frames, the three score
weights, and the squared rough pixel-to-meter factor. -/
structure MatcherConfig where
  window : Nat
  wT : ℚ
  wS : ℚ
  wTy : ℚ
  pixelScaleSq : ℚ
deriving DecidableEq, Repr

/-- Default policy constants (window ≈ 75 frames per the spec). -/
def defaultConfig : MatcherConfig := ⟨75, 3, 2, 1, 1 / 10000⟩

/-- Sanity conditions on a configuration: nonnegative weights and
pixel scale. -/
def MatcherConfig.ok (cfg : MatcherConfig) : Prop :=
  0 ≤ cfg.wT ∧ 0 ≤ cfg.wS ∧ 0 ≤ cfg.wTy ∧ 0 ≤ cfg.pixelScaleSq

instance (cfg : MatcherConfig) : Decidable cfg.ok := by
  unfold MatcherConfig.ok; infer_instance

/-- Eligibility: same half and category, frames within the window. -/
def eligible (cfg : MatcherConfig) (a c : MEvent) : Bool :=
  a.half == c.half && a.category == c.category
    && decide (Nat.dist a.frame c.frame ≤ cfg.window)

/-- Temporal proximity score: absolute frame difference normalised by
the window. -/
def temporalTerm (cfg : MatcherConfig) (a c : MEvent) : ℚ :=
  1 - (Nat.dist a.frame c.frame : ℚ) / (cfg.window : ℚ)

/-- Spatial proximity score: pitch distance when both events carry
pitch coordinates, else pixel distance scaled by the rough
pixel-to-meter estimate, else ignored (no penalty). -/
def spatialTerm (cfg : MatcherConfig) (a c : MEvent) : ℚ :=
  match a.pitchPos, c.pitchPos with
  | some p, some q => 1 / (1 + sqDist p q)
  | _, _ =>
    match a.pixelPos, c.pixelPos with
    | some p, some q => 1 / (1 + cfg.pixelScaleSq * sqDist p q)
    | _, _ => 1

/-- Type compatibility score: exact `event_type` match scores highest,
same-category-different-type scores partial. -/
def typeTerm (a c : MEvent) : ℚ :=
  if a.etype = c.etype then 1 else 1 / 2

/-- Weighted compatibility score of an (AI, corrected) pair. -/
def score (cfg : MatcherConfig) (a c : MEvent) : ℚ :=
  cfg.wT * temporalTerm cfg a c + cfg.wS * spatialTerm cfg a c
    + cfg.wTy * typeTerm a c

/-- All (AI, corrected) pairs. -/
def allPairs (ra rc : List MEvent) : List (MEvent × MEvent) :=
  ra.flatMap fun a => rc.map fun c => (a, c)

/-- The eligible pairs among the remaining events. -/
def eligiblePairs (cfg : MatcherConfig) (ra rc : List MEvent) :
    List (MEvent × MEvent) :=
  (allPairs ra rc).filter fun p => eligible cfg p.1 p.2

/-- Greedy selection key: best score first, ties broken by earliest
frame difference, then lowest AI event id, then lowest corrected event
id (spec §4.3 step 3). -/
def pairKey (cfg : MatcherConfig) (p : MEvent × MEvent) :
    ℚ ×ₗ (ℕ ×ₗ (ℕ ×ₗ ℕ)) :=
  toLex (-score cfg p.1 p.2,
    toLex (Nat.dist p.1.frame p.2.frame, toLex (p.1.id, p.2.id)))

/-- Pick the highest-scoring eligible pair still available. -/
def selectBest (cfg : MatcherConfig) (ra rc : List MEvent) :
    Option (MEvent × MEvent) :=
  (eligiblePairs cfg ra rc).argmin (pairKey cfg)

/-- Modelled from the spec: the greedy best-score-first matching loop
(§4.3 step 3), absent from `src/`.  Repeatedly commits the best
eligible pair and removes both events, until no eligible pair remains;
returns the committed pairs and the two remainders. -/
def greedyLoop (cfg : MatcherConfig) :
    Nat → List MEvent → List MEvent →
      List (MEvent × MEvent) × List MEvent × List MEvent
  | 0, ra, rc => ([], ra, rc)
  | fuel + 1, ra, rc =>
    match selectBest cfg ra rc with
    | none => ([], ra, rc)
    | some p =>
      let next := greedyLoop cfg fuel (ra.erase p.1) (rc.erase p.2)
      (p :: next.1, next.2)

/-- Run the greedy matching to exhaustion (each step consumes one AI
event, so `ra.length` fuel suffices). -/
def matchEvents (cfg : MatcherConfig) (ai corr : List MEvent) :
    List (MEvent × MEvent) × List MEvent × List MEvent :=
  greedyLoop cfg ai.length ai corr

/-- Matcher output for one match (the `MatchOutcome` of spec §3):
matched pairs (true positives), false positives and false negatives,
plus the type-correction count of §4.3 step 5. -/
structure MatchOutcome where
  matchedPairs : List (MEvent × MEvent)
  falsePositives : List MEvent
  falseNegatives : List MEvent
  typeCorrections : Nat
deriving DecidableEq, Repr

/-- Modelled from the spec: outcome classification (§4.3 steps 4-5 and
the `is_deleted` rule), absent from `src/`.  Unmatched AI events are
false positives and unmatched corrected events are false negatives; a
matched pair whose corrected event is flagged deleted is reclassified
as one false positive (the AI event) and no true positive. -/
def computeMatchOutcome (cfg : MatcherConfig) (ai corr : List MEvent) :
    MatchOutcome :=
  let g := matchEvents cfg ai corr
  let kept := g.1.filter fun p => !p.2.deleted
  { matchedPairs := kept
    falsePositives := g.2.1 ++ (g.1.filter fun p => p.2.deleted).map Prod.fst
    falseNegatives := g.2.2
    typeCorrections := kept.countP fun p => p.1.etype != p.2.etype }

/-- Event-detection accuracy: correct over total AI predictions, `null`
when there are no AI predictions (spec §4.4, §7). -/
def eventDetectionAccuracy (cfg : MatcherConfig) (ai corr : List MEvent) :
    Option ℚ :=
  if ai.length = 0 then none
  else some (((computeMatchOutcome cfg ai corr).matchedPairs.length : ℚ)
    / (ai.length : ℚ))

/-- Error taxonomy of the matcher (spec §7): raised only for truly
malformed input, an event referencing a nonexistent half. -/
inductive MatchingError where
  | invalidHalf
deriving DecidableEq, Repr

/-- Modelled from the spec: the matcher entry point with its input
validation (§7), absent from `src/`. -/
def matchEventsChecked (cfg : MatcherConfig) (ai corr : List MEvent) :
    Except MatchingError MatchOutcome :=
  if (ai ++ corr).all fun e => e.half == 1 || e.half == 2 then
    .ok (computeMatchOutcome cfg ai corr)
  else .error .invalidHalf

theorem mem_allPairs {ra rc : List MEvent} {p : MEvent × MEvent} :
    p ∈ allPairs ra rc ↔ p.1 ∈ ra ∧ p.2 ∈ rc := by
  obtain ⟨a, c⟩ := p
  simp [allPairs]

theorem selectBest_mem {cfg : MatcherConfig} {ra rc : List MEvent}
    {p : MEvent × MEvent} (h : selectBest cfg ra rc = some p) :
    p.1 ∈ ra ∧ p.2 ∈ rc ∧ eligible cfg p.1 p.2 = true := by
  have hp : p ∈ eligiblePairs cfg ra rc :=
    List.argmin_mem (Option.mem_def.mpr h)
  rw [eligiblePairs, List.mem_filter] at hp
  exact ⟨(mem_allPairs.mp hp.1).1, (mem_allPairs.mp hp.1).2, hp.2⟩

theorem selectBest_min {cfg : MatcherConfig} {ra rc : List MEvent}
    {p q : MEvent × MEvent} (h : selectBest cfg ra rc = some p)
    (hq : q ∈ eligiblePairs cfg ra rc) : pairKey cfg p ≤ pairKey cfg q :=
  List.le_of_mem_argmin hq (Option.mem_def.mpr h)

theorem greedy_perm_fst (cfg : MatcherConfig) :
    ∀ (fuel : Nat) (ra rc : List MEvent),
      List.Perm ((greedyLoop cfg fuel ra rc).1.map Prod.fst
        ++ (greedyLoop cfg fuel ra rc).2.1) ra
  | 0, ra, rc => by simp [greedyLoop]
  | fuel + 1, ra, rc => by
    rw [greedyLoop]
    cases hsel : selectBest cfg ra rc with
    | none => simp
    | some p =>
      simp only [List.map_cons, List.cons_append]
      exact ((greedy_perm_fst cfg fuel (ra.erase p.1) (rc.erase p.2)).cons
        p.1).trans (List.perm_cons_erase (selectBest_mem hsel).1).symm

theorem greedy_perm_snd (cfg : MatcherConfig) :
    ∀ (fuel : Nat) (ra rc : List MEvent),
      List.Perm ((greedyLoop cfg fuel ra rc).1.map Prod.snd
        ++ (greedyLoop cfg fuel ra rc).2.2) rc
  | 0, ra, rc => by simp [greedyLoop]
  | fuel + 1, ra, rc => by
    rw [greedyLoop]
    cases hsel : selectBest cfg ra rc with
    | none => simp
    | some p =>
      simp only [List.map_cons, List.cons_append]
      exact ((greedy_perm_snd cfg fuel (ra.erase p.1) (rc.erase p.2)).cons
        p.2).trans (List.perm_cons_erase (selectBest_mem hsel).2.1).symm

theorem greedy_pairs_mem (cfg : MatcherConfig) :
    ∀ (fuel : Nat) (ra rc : List MEvent) (p : MEvent × MEvent),
      p ∈ (greedyLoop cfg fuel ra rc).1 → p.1 ∈ ra ∧ p.2 ∈ rc
  | 0, ra, rc, p => by simp [greedyLoop]
  | fuel + 1, ra, rc, p => by
    rw [greedyLoop]
    cases hsel : selectBest cfg ra rc with
    | none => simp
    | some q =>
      intro hp
      rcases List.mem_cons.mp hp with rfl | hp
      · exact ⟨(selectBest_mem hsel).1, (selectBest_mem hsel).2.1⟩
      · have := greedy_pairs_mem cfg fuel (ra.erase q.1) (rc.erase q.2) p hp
        exact ⟨List.erase_subset _ _ this.1, List.erase_subset _ _ this.2⟩

theorem inv_one_add_le_one {d : ℚ} (hd : 0 ≤ d) : 1 / (1 + d) ≤ 1 := by
  rw [div_le_one (by linarith)]
  linarith

theorem sqDist_nonneg (p q : Pt) : 0 ≤ sqDist p q :=
  add_nonneg (sq_nonneg _) (sq_nonneg _)

theorem sqDist_self (p : Pt) : sqDist p p = 0 := by
  simp [sqDist]

theorem temporalTerm_le (cfg : MatcherConfig) (a c : MEvent) :
    temporalTerm cfg a c ≤ 1 := by
  have h : (0 : ℚ) ≤ (Nat.dist a.frame c.frame : ℚ) / (cfg.window : ℚ) :=
    div_nonneg (Nat.cast_nonneg _) (Nat.cast_nonneg _)
  unfold temporalTerm
  linarith

theorem temporalTerm_self (cfg : MatcherConfig) (a : MEvent) :
    temporalTerm cfg a a = 1 := by
  simp [temporalTerm, Nat.dist_self]

theorem spatialTerm_le (cfg : MatcherConfig) (hpx : 0 ≤ cfg.pixelScaleSq)
    (a c : MEvent) : spatialTerm cfg a c ≤ 1 := by
  unfold spatialTerm
  split
  · exact inv_one_add_le_one (sqDist_nonneg _ _)
  · split
    · exact inv_one_add_le_one (mul_nonneg hpx (sqDist_nonneg _ _))
    · exact le_refl 1

theorem spatialTerm_self (cfg : MatcherConfig) (a : MEvent) :
    spatialTerm cfg a a = 1 := by
  cases hp : a.pitchPos <;> cases hx : a.pixelPos <;>
    norm_num [spatialTerm, hp, hx, sqDist_self]

theorem typeTerm_le (a c : MEvent) : typeTerm a c ≤ 1 := by
  unfold typeTerm
  split <;> norm_num

theorem typeTerm_self (a : MEvent) : typeTerm a a = 1 := by
  simp [typeTerm]

theorem score_le_self (cfg : MatcherConfig) (hok : cfg.ok) (a c : MEvent) :
    score cfg a c ≤ score cfg a a := by
  obtain ⟨hT, hS, hTy, hPx⟩ := hok
  unfold score
  rw [temporalTerm_self, spatialTerm_self, typeTerm_self]
  have h1 := mul_le_mul_of_nonneg_left (temporalTerm_le cfg a c) hT
  have h2 := mul_le_mul_of_nonneg_left (spatialTerm_le cfg hPx a c) hS
  have h3 := mul_le_mul_of_nonneg_left (typeTerm_le a c) hTy
  linarith

theorem score_self_const (cfg : MatcherConfig) (a : MEvent) :
    score cfg a a = cfg.wT + cfg.wS + cfg.wTy := by
  unfold score
  rw [temporalTerm_self, spatialTerm_self, typeTerm_self]
  ring

theorem eligible_self (cfg : MatcherConfig) (a : MEvent) :
    eligible cfg a a = true := by
  simp [eligible, Nat.dist_self]

theorem key_le_elim {s1 s2 : ℚ} {d1 d2 i1 i2 j1 j2 : ℕ}
    (h : (toLex (-s1, toLex (d1, toLex (i1, j1))) :
        ℚ ×ₗ (ℕ ×ₗ (ℕ ×ₗ ℕ))) ≤ toLex (-s2, toLex (d2, toLex (i2, j2))))
    (hs : s1 ≤ s2) :
    s1 = s2 ∧ (d1 < d2 ∨ (d1 = d2 ∧ (i1 < i2 ∨ (i1 = i2 ∧ j1 ≤ j2)))) := by
  rcases (Prod.Lex.le_iff _ _).mp h with hlt | ⟨heq, hrest⟩
  · simp only at hlt
    exact absurd hlt (by simpa using hs)
  · simp only at heq hrest
    refine ⟨by linarith [neg_inj.mp heq], ?_⟩
    rcases (Prod.Lex.le_iff _ _).mp hrest with hd | ⟨hdeq, hrest2⟩
    · exact Or.inl hd
    · simp only at hdeq hrest2
      refine Or.inr ⟨hdeq, ?_⟩
      rcases (Prod.Lex.le_iff _ _).mp hrest2 with hi | ⟨hieq, hj⟩
      · exact Or.inl hi
      · exact Or.inr ⟨hieq, hj⟩

/-- On identical AI and corrected lists with distinct event ids, the
greedy step always commits a self pair. -/
theorem selectBest_self_diag (cfg : MatcherConfig) (hok : cfg.ok)
    (l : List MEvent) (hne : l ≠ [])
    (hids : (l.map MEvent.id).Nodup) :
    ∃ a ∈ l, selectBest cfg l l = some (a, a) := by
  obtain ⟨x, xs, rfl⟩ := List.exists_cons_of_ne_nil hne
  have hxx : ((x, x) : MEvent × MEvent) ∈ eligiblePairs cfg (x :: xs) (x :: xs) := by
    rw [eligiblePairs, List.mem_filter]
    exact ⟨mem_allPairs.mpr ⟨List.mem_cons_self .., List.mem_cons_self ..⟩,
      eligible_self cfg x⟩
  have hnonempty : eligiblePairs cfg (x :: xs) (x :: xs) ≠ [] :=
    fun h => by simp [h] at hxx
  cases hsel : selectBest cfg (x :: xs) (x :: xs) with
  | none =>
    exact absurd (List.argmin_eq_none.mp hsel) hnonempty
  | some p =>
    obtain ⟨a, c⟩ := p
    obtain ⟨ha, hc, helig⟩ := selectBest_mem hsel
    have haa : ((a, a) : MEvent × MEvent) ∈ eligiblePairs cfg (x :: xs) (x :: xs) := by
      rw [eligiblePairs, List.mem_filter]
      exact ⟨mem_allPairs.mpr ⟨ha, ha⟩, eligible_self cfg a⟩
    have hcc : ((c, c) : MEvent × MEvent) ∈ eligiblePairs cfg (x :: xs) (x :: xs) := by
      rw [eligiblePairs, List.mem_filter]
      exact ⟨mem_allPairs.mpr ⟨hc, hc⟩, eligible_self cfg c⟩
    have hsb : score cfg a c ≤ score cfg c c := by
      rw [score_self_const cfg c, ← score_self_const cfg a]
      exact score_le_self cfg hok a c
    have h1 := key_le_elim (selectBest_min hsel haa)
      (score_le_self cfg hok a c)
    have h2 := key_le_elim (selectBest_min hsel hcc) hsb
    have hid : a.id = c.id := by
      dsimp only at h1 h2
      simp only [Nat.dist_self] at h1 h2
      rcases h1.2 with hd | ⟨-, h1r⟩
      · exact absurd hd (by omega)
      · rcases h2.2 with hd' | ⟨-, h2r⟩
        · exact absurd hd' (by omega)
        · rcases h1r with h1i | ⟨-, h1j⟩
          · omega
          · rcases h2r with h2i | ⟨h2i, -⟩ <;> omega
    have hac : a = c := List.inj_on_of_nodup_map hids ha hc hid
    exact ⟨a, ha, by rw [← hac]⟩

/-- Greedy matching on two identical lists with distinct ids consumes
everything, pairing each event with itself. -/
theorem greedyLoop_self (cfg : MatcherConfig) (hok : cfg.ok) :
    ∀ (fuel : Nat) (l : List MEvent), l.length ≤ fuel →
      (l.map MEvent.id).Nodup →
      (greedyLoop cfg fuel l l).2.1 = [] ∧ (greedyLoop cfg fuel l l).2.2 = []
        ∧ ∀ p ∈ (greedyLoop cfg fuel l l).1, p.1 = p.2
  | 0, l, hlen, _ => by
    have hl : l = [] := List.eq_nil_of_length_eq_zero (Nat.le_zero.mp hlen)
    subst hl
    simp [greedyLoop]
  | fuel + 1, l, hlen, hids => by
    by_cases hl : l = []
    · subst hl
      have hsel : selectBest cfg ([] : List MEvent) [] = none := rfl
      rw [greedyLoop, hsel]
      simp
    · obtain ⟨a, ha, hsel⟩ := selectBest_self_diag cfg hok l hl hids
      have hlen' : (l.erase a).length ≤ fuel := by
        have := List.length_erase_add_one ha
        omega
      have hids' : ((l.erase a).map MEvent.id).Nodup :=
        hids.sublist ((List.erase_sublist a l).map MEvent.id)
      have ih := greedyLoop_self cfg hok fuel (l.erase a) hlen' hids'
      rw [greedyLoop, hsel]
      refine ⟨ih.1, ih.2.1, ?_⟩
      intro p hp
      rcases List.mem_cons.mp hp with rfl | hp
      · rfl
      · exact ih.2.2 p hp

/-- A matched pair with a deleted corrected event: one event, deleted,
identical on both sides. -/
def delEvent : MEvent := ⟨0, 1, "passing", "pass", 10, none, none, true⟩

/-- C5 as frozen is refuted by an `is_deleted` event: running the
matcher with the same one-event list on both sides yields one false
positive (the matched pair is reclassified per the deletion rule), not
zero, and the event-detection accuracy is 0, not 100%. -/
theorem c5_identical_counterexample :
    (computeMatchOutcome defaultConfig [delEvent] [delEvent]).falsePositives.length = 1
      ∧ (computeMatchOutcome defaultConfig [delEvent] [delEvent]).matchedPairs = [] := by
  decide

/-- C5 (amended): for every event list with distinct event ids, no
`is_deleted` flags and at least one event, running the matcher with the
list as both the AI and the corrected stream yields no false positives,
no false negatives, every event in a matched pair, and event-detection
accuracy 1. -/
theorem c5_identical_lists (cfg : MatcherConfig) (hok : cfg.ok)
    (l : List MEvent) (hids : (l.map MEvent.id).Nodup)
    (hdel : ∀ e ∈ l, e.deleted = false) (hne : l ≠ []) :
    (computeMatchOutcome cfg l l).falsePositives = []
      ∧ (computeMatchOutcome cfg l l).falseNegatives = []
      ∧ List.Perm ((computeMatchOutcome cfg l l).matchedPairs.map Prod.fst) l
      ∧ eventDetectionAccuracy cfg l l = some 1 := by
  have hg := greedyLoop_self cfg hok l.length l le_rfl hids
  have hmem := fun p hp =>
    greedy_pairs_mem cfg l.length l l p hp
  have hkeep : (matchEvents cfg l l).1.filter (fun p => !p.2.deleted)
      = (matchEvents cfg l l).1 := by
    apply List.filter_eq_self.mpr
    intro p hp
    have := hdel p.2 (hmem p hp).2
    simp [this]
  have hdrop : (matchEvents cfg l l).1.filter (fun p => p.2.deleted) = [] := by
    apply List.filter_eq_nil_iff.mpr
    intro p hp
    have := hdel p.2 (hmem p hp).2
    simp [this]
  have hperm : List.Perm ((matchEvents cfg l l).1.map Prod.fst) l := by
    have h := greedy_perm_fst cfg l.length l l
    rw [hg.1, List.append_nil] at h
    exact h
  have hlen0 : l.length ≠ 0 := fun h => hne (List.eq_nil_of_length_eq_zero h)
  refine ⟨?_, ?_, ?_, ?_⟩
  · show (matchEvents cfg l l).2.1
      ++ ((matchEvents cfg l l).1.filter fun p => p.2.deleted).map Prod.fst = []
    rw [hdrop, List.map_nil, List.append_nil]
    exact hg.1
  · exact hg.2.1
  · show List.Perm (((matchEvents cfg l l).1.filter
      fun p => !p.2.deleted).map Prod.fst) l
    rw [hkeep]
    exact hperm
  · rw [eventDetectionAccuracy, if_neg hlen0]
    have hml : (computeMatchOutcome cfg l l).matchedPairs.length = l.length := by
      show ((matchEvents cfg l l).1.filter fun p => !p.2.deleted).length = _
      rw [hkeep, ← hperm.length_eq, List.length_map]
    rw [hml, div_self (by exact_mod_cast hlen0)]

/-- A plain, non-deleted event. -/
def okEvent : MEvent := ⟨3, 1, "passing", "pass", 10, none, none, false⟩

/-- Concrete instantiation of the amended identical-lists law on a
one-event list. -/
theorem c5_identical_lists_witness :
    defaultConfig.ok
      ∧ (computeMatchOutcome defaultConfig [okEvent] [okEvent]).falsePositives = []
      ∧ (computeMatchOutcome defaultConfig [okEvent] [okEvent]).falseNegatives = []
      ∧ List.Perm ((computeMatchOutcome defaultConfig [okEvent]
          [okEvent]).matchedPairs.map Prod.fst) [okEvent]
      ∧ eventDetectionAccuracy defaultConfig [okEvent] [okEvent] = some 1 := by
  have hok : defaultConfig.ok := by
    refine ⟨?_, ?_, ?_, ?_⟩ <;> norm_num [defaultConfig]
  exact ⟨hok, c5_identical_lists defaultConfig hok [okEvent]
    (by decide) (by decide) (by decide)⟩

/-- C3: a corrected-origin event flagged `is_deleted` that would
otherwise match an AI event is reclassified: no matched pair with a
deleted corrected event survives as a true positive, the pair's AI
event lands among the false positives (one per deleted pair, on top of
the unmatched AI events), and the pair's corrected event is consumed by
the matching, never counted as a false negative. -/
theorem c3_deleted_reclassified (cfg : MatcherConfig) (ai corr : List MEvent) :
    ((computeMatchOutcome cfg ai corr).matchedPairs.countP
        fun p => p.2.deleted) = 0
    ∧ (computeMatchOutcome cfg ai corr).falsePositives.length
        = (matchEvents cfg ai corr).2.1.length
          + ((matchEvents cfg ai corr).1.filter fun p => p.2.deleted).length
    ∧ (matchEvents cfg ai corr).1.length
        + (computeMatchOutcome cfg ai corr).falseNegatives.length = corr.length
    ∧ ∀ p ∈ (matchEvents cfg ai corr).1, p.2.deleted = true →
        p.1 ∈ (computeMatchOutcome cfg ai corr).falsePositives
        ∧ p ∉ (computeMatchOutcome cfg ai corr).matchedPairs := by
  refine ⟨?_, ?_, ?_, ?_⟩
  · apply List.countP_eq_zero.mpr
    intro p hp
    have := (List.mem_filter.mp hp).2
    simp_all
  · show ((matchEvents cfg ai corr).2.1
      ++ ((matchEvents cfg ai corr).1.filter fun p => p.2.deleted).map
        Prod.fst).length = _
    rw [List.length_append, List.length_map]
  · have h := greedy_perm_snd cfg ai.length ai corr
    have := h.length_eq
    rw [List.length_append, List.length_map] at this
    exact this
  · intro p hp hdel
    constructor
    · show p.1 ∈ (matchEvents cfg ai corr).2.1
        ++ ((matchEvents cfg ai corr).1.filter fun q => q.2.deleted).map
          Prod.fst
      refine List.mem_append.mpr (Or.inr ?_)
      exact List.mem_map.mpr ⟨p, List.mem_filter.mpr ⟨hp, by simp [hdel]⟩, rfl⟩
    · intro hmem
      have := (List.mem_filter.mp hmem).2
      simp [hdel] at this

/-- An AI event that the matcher pairs with `reviewDelEvent`. -/
def aiPairEvent : MEvent := ⟨5, 1, "passing", "pass", 20, none, none, false⟩

/-- A corrected event flagged deleted, two frames away. -/
def reviewDelEvent : MEvent := ⟨9, 1, "passing", "pass", 22, none, none, true⟩

/-- Concrete instantiation: the deleted pair yields exactly one false
positive and no true positive. -/
theorem c3_deleted_reclassified_witness :
    (aiPairEvent, reviewDelEvent)
        ∈ (matchEvents defaultConfig [aiPairEvent] [reviewDelEvent]).1
    ∧ reviewDelEvent.deleted = true
    ∧ aiPairEvent ∈ (computeMatchOutcome defaultConfig [aiPairEvent]
        [reviewDelEvent]).falsePositives
    ∧ (aiPairEvent, reviewDelEvent) ∉ (computeMatchOutcome defaultConfig
        [aiPairEvent] [reviewDelEvent]).matchedPairs
    ∧ (computeMatchOutcome defaultConfig [aiPairEvent]
        [reviewDelEvent]).falsePositives.length = 1 :=
  ⟨by decide, by decide,
   ((c3_deleted_reclassified defaultConfig [aiPairEvent] [reviewDelEvent]).2.2.2
     (aiPairEvent, reviewDelEvent) (by decide) (by decide)).1,
   ((c3_deleted_reclassified defaultConfig [aiPairEvent] [reviewDelEvent]).2.2.2
     (aiPairEvent, reviewDelEvent) (by decide) (by decide)).2,
   by decide⟩

/-! ## Calibration Manager convert and soft degradation (spec §4.2, §7) -/

/-- The pixel/pitch anchor of an annotation record (the `Detection` /
`BallPosition` data contracts in `types/index.ts`: pixel coordinates
always present, `pitch_x`/`pitch_y` nullable). -/
structure ARecord where
  pixelX : ℚ
  pixelY : ℚ
  pitchX : Option ℚ
  pitchY : Option ℚ
deriving DecidableEq, Repr

/-- Modelled from the spec: `convert(record)` of the Calibration
Manager (§4.2), absent from `src/` — enriches the pixel anchor with a
pitch anchor if a valid calibration exists for the match, otherwise
leaves the pitch fields untouched (null stays null). -/
def convert (s : CalibrationStore) (matchId : Nat) (r : ARecord) : ARecord :=
  match storeGet s matchId with
  | some cal =>
    if cal.isValid then
      match applyHom cal.H ⟨r.pixelX, r.pixelY⟩ with
      | some q => { r with pitchX := some q.x, pitchY := some q.y }
      | none => r
    else r
  | none => r

/-- C7: with no valid calibration for the match, `convert` returns the
record unchanged (pitch fields stay null, pixel fields untouched), the
matcher still runs to completion on well-formed events, and spatial
scoring falls back to scaled pixel distance when pitch coordinates are
missing. -/
theorem c7_no_calibration_soft (s : CalibrationStore) (matchId : Nat)
    (r : ARecord) (cfg : MatcherConfig) (ai corr : List MEvent)
    (hnone : ∀ cal, storeGet s matchId = some cal → cal.isValid = false)
    (hhalf : ((ai ++ corr).all fun e => e.half == 1 || e.half == 2) = true) :
    convert s matchId r = r
    ∧ matchEventsChecked cfg ai corr = .ok (computeMatchOutcome cfg ai corr)
    ∧ ∀ (a c : MEvent) (pa pc : Pt), a.pitchPos = none →
        a.pixelPos = some pa → c.pixelPos = some pc →
        spatialTerm cfg a c = 1 / (1 + cfg.pixelScaleSq * sqDist pa pc) := by
  refine ⟨?_, ?_, ?_⟩
  · unfold convert
    cases hs : storeGet s matchId with
    | none => rfl
    | some cal => simp [hnone cal hs]
  · rw [matchEventsChecked, if_pos hhalf]
  · intro a c pa pc hpitch hpa hpc
    unfold spatialTerm
    rw [hpitch, hpa, hpc]

/-- An event carrying only a pixel anchor. -/
def pixelOnlyEvent : MEvent := ⟨2, 1, "passing", "pass", 30, none,
  some ⟨5, 6⟩, false⟩

/-- Concrete instantiation: empty calibration store, a record without
pitch coordinates, and a one-event matcher run. -/
theorem c7_no_calibration_soft_witness :
    convert [] 3 ⟨5, 6, none, none⟩ = ⟨5, 6, none, none⟩
    ∧ matchEventsChecked defaultConfig [pixelOnlyEvent] [pixelOnlyEvent]
        = .ok (computeMatchOutcome defaultConfig [pixelOnlyEvent]
            [pixelOnlyEvent])
    ∧ ∀ (a c : MEvent) (pa pc : Pt), a.pitchPos = none →
        a.pixelPos = some pa → c.pixelPos = some pc →
        spatialTerm defaultConfig a c
          = 1 / (1 + defaultConfig.pixelScaleSq * sqDist pa pc) :=
  c7_no_calibration_soft [] 3 ⟨5, 6, none, none⟩ defaultConfig
    [pixelOnlyEvent] [pixelOnlyEvent]
    (fun cal h => by simp [storeGet] at h) (by decide)

/-- C8: the matcher and the homography solve are deterministic — equal
inputs give equal outputs — and greedy selection breaks score ties by
earliest frame difference and then by lowest AI event id. -/
theorem c8_deterministic_tiebreak :
    (∀ (cfg : MatcherConfig) (ai₁ ai₂ corr₁ corr₂ : List MEvent),
      ai₁ = ai₂ → corr₁ = corr₂ →
      computeMatchOutcome cfg ai₁ corr₁ = computeMatchOutcome cfg ai₂ corr₂)
    ∧ (∀ (tol : ℚ) (pts₁ pts₂ : List CalibPoint), pts₁ = pts₂ →
      recomputeCalibration tol pts₁ = recomputeCalibration tol pts₂)
    ∧ ∀ (cfg : MatcherConfig) (ra rc : List MEvent)
        (p q : MEvent × MEvent),
        selectBest cfg ra rc = some p → q ∈ eligiblePairs cfg ra rc →
        score cfg q.1 q.2 = score cfg p.1 p.2 →
        Nat.dist p.1.frame p.2.frame ≤ Nat.dist q.1.frame q.2.frame
          ∧ (Nat.dist p.1.frame p.2.frame = Nat.dist q.1.frame q.2.frame →
              p.1.id ≤ q.1.id) := by
  refine ⟨?_, ?_, ?_⟩
  · rintro cfg ai₁ ai₂ corr₁ corr₂ rfl rfl
    rfl
  · rintro tol pts₁ pts₂ rfl
    rfl
  · intro cfg ra rc p q hsel hq hscore
    have h := key_le_elim (selectBest_min hsel hq) (le_of_eq hscore.symm)
    rcases h.2 with hd | ⟨hdeq, hrest⟩
    · exact ⟨le_of_lt hd, fun heq => absurd heq (by omega)⟩
    · refine ⟨le_of_eq hdeq, fun _ => ?_⟩
      rcases hrest with hi | ⟨hieq, -⟩
      · exact le_of_lt hi
      · exact le_of_eq hieq

/-- An AI-side event for the tie-break instantiation. -/
def tieAiEvent : MEvent := ⟨4, 1, "shooting", "shot", 40, none, none, false⟩

/-- A corrected-side event one frame later. -/
def tieCorrEvent : MEvent := ⟨6, 1, "shooting", "shot", 41, none, none, false⟩

/-- Concrete instantiation of the tie-break law on a one-pair pool. -/
theorem c8_deterministic_tiebreak_witness :
    selectBest defaultConfig [tieAiEvent] [tieCorrEvent]
        = some (tieAiEvent, tieCorrEvent)
    ∧ (tieAiEvent, tieCorrEvent)
        ∈ eligiblePairs defaultConfig [tieAiEvent] [tieCorrEvent]
    ∧ Nat.dist tieAiEvent.frame tieCorrEvent.frame
        ≤ Nat.dist tieAiEvent.frame tieCorrEvent.frame
    ∧ (Nat.dist tieAiEvent.frame tieCorrEvent.frame
        = Nat.dist tieAiEvent.frame tieCorrEvent.frame →
        tieAiEvent.id ≤ tieAiEvent.id) :=
  ⟨by decide, by decide,
   c8_deterministic_tiebreak.2.2 defaultConfig [tieAiEvent] [tieCorrEvent]
     (tieAiEvent, tieCorrEvent) (tieAiEvent, tieCorrEvent)
     (by decide) (by decide) rfl⟩

/-! ## Accuracy aggregator ratio metrics (modelled from the spec, §4.4, §7) -/

/-- Modelled from the spec: Aggregator precision `TP/(TP+FP)`, null
when the denominator is 0 (§4.4, §7; the `AccuracyMetric` contract in
`types/index.ts` has `precision: number | null`). -/
def precisionMetric (tp fp : Nat) : Option ℚ :=
  if tp + fp = 0 then none else some ((tp : ℚ) / ((tp : ℚ) + (fp : ℚ)))

/-- Modelled from the spec: Aggregator recall `TP/(TP+FN)`, null when
the denominator is 0. -/
def recallMetric (tp fn : Nat) : Option ℚ :=
  if tp + fn = 0 then none else some ((tp : ℚ) / ((tp : ℚ) + (fn : ℚ)))

/-- Modelled from the spec: `F1 = 2PR/(P+R)`, guarded — null when a
constituent is null or the denominator `P+R` is 0, never an unguarded
division. -/
def f1Metric : Option ℚ → Option ℚ → Option ℚ
  | some p, some r => if p + r = 0 then none else some (2 * p * r / (p + r))
  | _, _ => none

/-- C4: precision and recall are in [0,1] or null exactly when their
denominator is 0; F1 is computed only behind the zero-denominator
guard (null when `P+R` is 0, and in [0,1] otherwise), so no division
by zero can occur; and a 0.0 ratio with data present is `some 0`,
distinguished from `none` meaning no data. -/
theorem c4_metric_guards (tp fp fn : Nat) :
    (precisionMetric tp fp = none ↔ tp + fp = 0)
    ∧ (∀ q, precisionMetric tp fp = some q → 0 ≤ q ∧ q ≤ 1)
    ∧ (recallMetric tp fn = none ↔ tp + fn = 0)
    ∧ (∀ q, recallMetric tp fn = some q → 0 ≤ q ∧ q ≤ 1)
    ∧ (∀ p r : ℚ, p + r = 0 → f1Metric (some p) (some r) = none)
    ∧ (∀ p r q : ℚ, 0 ≤ p → p ≤ 1 → 0 ≤ r → r ≤ 1 →
        f1Metric (some p) (some r) = some q → 0 ≤ q ∧ q ≤ 1)
    ∧ (tp = 0 → 0 < fp → precisionMetric tp fp = some 0) := by
  have hratio : ∀ a b : Nat, a + b ≠ 0 →
      0 ≤ (a : ℚ) / ((a : ℚ) + (b : ℚ)) ∧ (a : ℚ) / ((a : ℚ) + (b : ℚ)) ≤ 1 := by
    intro a b hab
    have hpos : (0 : ℚ) < (a : ℚ) + (b : ℚ) := by
      have := Nat.pos_of_ne_zero hab
      exact_mod_cast this
    constructor
    · exact div_nonneg (Nat.cast_nonneg a) (le_of_lt hpos)
    · rw [div_le_one hpos]
      have : (0 : ℚ) ≤ (b : ℚ) := Nat.cast_nonneg b
      linarith
  refine ⟨?_, ?_, ?_, ?_, ?_, ?_, ?_⟩
  · unfold precisionMetric
    split <;> simp_all
  · intro q hq
    unfold precisionMetric at hq
    split at hq
    · exact absurd hq (by simp)
    · obtain rfl := Option.some.inj hq
      exact hratio tp fp (by assumption)
  · unfold recallMetric
    split <;> simp_all
  · intro q hq
    unfold recallMetric at hq
    split at hq
    · exact absurd hq (by simp)
    · obtain rfl := Option.some.inj hq
      exact hratio tp fn (by assumption)
  · intro p r hpr
    simp [f1Metric, hpr]
  · intro p r q hp0 hp1 hr0 hr1 hq
    rw [f1Metric] at hq
    split at hq
    · exact absurd hq (by simp)
    · obtain rfl := Option.some.inj hq
      have hpr : (0 : ℚ) < p + r := by
        rcases lt_or_eq_of_le (by linarith : (0 : ℚ) ≤ p + r) with h | h
        · exact h
        · exact absurd h.symm (by assumption)
      constructor
      · exact div_nonneg (by nlinarith) (le_of_lt hpr)
      · rw [div_le_one hpr]
        nlinarith
  · intro htp hfp
    subst htp
    unfold precisionMetric
    rw [if_neg (by omega)]
    simp

/-- Concrete instantiation of the metric guards at TP=3, FP=1 and at
the data-present zero ratio TP=0, FP=2. -/
theorem c4_metric_guards_witness :
    precisionMetric 3 1 = some (3 / 4)
    ∧ (0 ≤ (3 / 4 : ℚ) ∧ (3 / 4 : ℚ) ≤ 1)
    ∧ precisionMetric 0 2 = some 0 :=
  ⟨by norm_num [precisionMetric],
   (c4_metric_guards 3 1 0).2.1 (3 / 4) (by norm_num [precisionMetric]),
   (c4_metric_guards 0 2 0).2.2.2.2.2.2 rfl (by norm_num)⟩

/-! ## Frontend: track and event correction payloads
(`TrackEditor.tsx`, `EventEditor.tsx`, `types/index.ts`) -/

/-- Type `TeamSide` from `types/index.ts`. -/
inductive TeamSide where
  | home | away | referee | linesman | unknown
deriving DecidableEq, Repr

/-- Type `DetectionClass` from `types/index.ts`. -/
inductive DetectionClass where
  | player | goalkeeper | referee | linesman | ball | unknown
deriving DecidableEq, Repr

/-- The `Track` data contract (`types/index.ts` lines 106-130). -/
structure Track where
  id : Nat
  match_id : Nat
  track_id : Nat
  ai_team : TeamSide
  ai_detection_class : DetectionClass
  ai_jersey_number : Option Nat
  corrected_team : Option TeamSide
  corrected_detection_class : Option DetectionClass
  corrected_jersey_number : Option Nat
  assigned_player_id : Option Nat
  team : TeamSide
  detection_class : DetectionClass
  jersey_number : Option Nat
  first_frame : Nat
  last_frame : Nat
  total_detections : Nat
  is_reviewed : Bool
  is_corrected : Bool
deriving DecidableEq, Repr

/-- The update payload `TrackEditor.updateTrack` sends (`TrackEditor.tsx`
lines 49-61): only the `corrected_*` fields, the player assignment and
the reviewed flag. -/
structure TrackUpdate where
  corrected_team : Option TeamSide
  corrected_detection_class : Option DetectionClass
  corrected_jersey_number : Option Nat
  assigned_player_id : Option Nat
  is_reviewed : Bool
deriving DecidableEq, Repr

/-- Modelled from the spec plus the `TrackEditor.tsx` payload: the
backend PUT handler (absent from `src/`) sets exactly the submitted
fields on the track row. -/
def applyTrackUpdate (t : Track) (u : TrackUpdate) : Track :=
  { t with
    corrected_team := u.corrected_team
    corrected_detection_class := u.corrected_detection_class
    corrected_jersey_number := u.corrected_jersey_number
    assigned_player_id := u.assigned_player_id
    is_reviewed := u.is_reviewed }

/-- The slice of the `Event` data contract used by `EventList.tsx` and
`EventEditor.tsx` (`types/index.ts` lines 217-263). -/
structure Event where
  id : Nat
  frame_start : Nat
  half : Nat
  event_type : String
  event_category : String
  player_track_id : Option Nat
  target_track_id : Option Nat
  opponent_track_id : Option Nat
  outcome_success : Option Bool
  body_part : Option String
  pass_height : Option String
  under_pressure : Bool
  is_counter_attack : Bool
  is_set_piece : Bool
  is_first_touch : Bool
  is_ai_generated : Bool
  is_corrected : Bool
  is_deleted : Bool
  is_manually_added : Bool
deriving DecidableEq, Repr

/-- The update payload `EventEditor.updateEvent` sends (`EventEditor.tsx`
lines 107-121); the literal `is_corrected: true` of the payload is
applied by `applyEventUpdate`. -/
structure EventUpdate where
  event_type : String
  event_category : String
  player_track_id : Option Nat
  target_track_id : Option Nat
  opponent_track_id : Option Nat
  outcome_success : Option Bool
  body_part : Option String
  pass_height : Option String
  under_pressure : Bool
  is_counter_attack : Bool
  is_set_piece : Bool
  is_first_touch : Bool
deriving DecidableEq, Repr

/-- Modelled from the spec plus the `EventEditor.tsx` payload: the
backend PUT handler (absent from `src/`) sets the submitted fields —
including `event_type` itself — on the event row and flags it
corrected. -/
def applyEventUpdate (e : Event) (u : EventUpdate) : Event :=
  { e with
    event_type := u.event_type
    event_category := u.event_category
    player_track_id := u.player_track_id
    target_track_id := u.target_track_id
    opponent_track_id := u.opponent_track_id
    outcome_success := u.outcome_success
    body_part := u.body_part
    pass_height := u.pass_height
    under_pressure := u.under_pressure
    is_counter_attack := u.is_counter_attack
    is_set_piece := u.is_set_piece
    is_first_touch := u.is_first_touch
    is_corrected := true }

/-- An AI-generated pass event. -/
def aiPassEvent : Event :=
  ⟨1, 100, 1, "pass", "passing", none, none, none, none, none, none,
   false, false, false, false, true, false, false, false⟩

/-- The payload the editor sends when the reviewer relabels it a cross. -/
def crossUpdate : EventUpdate :=
  ⟨"cross", "passing", none, none, none, none, none, none,
   false, false, false, false⟩

/-- C6 as frozen fails on event corrections: saving a type correction in
`EventEditor` overwrites the event record's own `event_type` (the
`Event` contract has no parallel `corrected_event_type` field), so the
original event field of an AI-origin record does not survive. -/
theorem c6_event_overwrite_counterexample :
    aiPassEvent.is_ai_generated = true
    ∧ (applyEventUpdate aiPassEvent crossUpdate).event_type
        ≠ aiPassEvent.event_type := by
  decide

/-- C6 (amended): track corrections never touch the AI-origin fields —
they are stored only in the parallel `corrected_*` fields plus the
reviewed flag — while event corrections overwrite the event's fields in
place, always marking the record corrected. -/
theorem c6_corrections_overlay (t : Track) (u : TrackUpdate) (e : Event)
    (v : EventUpdate) :
    (applyTrackUpdate t u).ai_team = t.ai_team
    ∧ (applyTrackUpdate t u).ai_detection_class = t.ai_detection_class
    ∧ (applyTrackUpdate t u).ai_jersey_number = t.ai_jersey_number
    ∧ (applyTrackUpdate t u).corrected_team = u.corrected_team
    ∧ (applyTrackUpdate t u).corrected_detection_class
        = u.corrected_detection_class
    ∧ (applyTrackUpdate t u).corrected_jersey_number
        = u.corrected_jersey_number
    ∧ (applyTrackUpdate t u).is_reviewed = u.is_reviewed
    ∧ (applyEventUpdate e v).is_corrected = true :=
  ⟨rfl, rfl, rfl, rfl, rfl, rfl, rfl, rfl⟩

/-! ## Frontend: EventList filtering, sorting and counters
(`EventList.tsx` lines 37-75) -/

/-- Prefix test on character lists. -/
def listPrefixOf : List Char → List Char → Bool
  | [], _ => true
  | _ :: _, [] => false
  | a :: as, b :: bs => a == b && listPrefixOf as bs

/-- Infix test on character lists. -/
def listInfixOf (needle : List Char) : List Char → Bool
  | [] => listPrefixOf needle []
  | b :: bs => listPrefixOf needle (b :: bs) || listInfixOf needle bs

/-- Model of `String.prototype.includes` for the search filter. -/
def containsSubstr (needle hay : String) : Bool :=
  listInfixOf needle.data hay.data

/-- Model of `String.prototype.toLowerCase` (ASCII). -/
def lowerStr (s : String) : String :=
  ⟨s.data.map Char.toLower⟩

/-- The status filter dropdown of `EventList.tsx`. -/
inductive StatusFilter where
  | all | ai | corrected | manual
deriving DecidableEq, Repr

/-- The per-event filter of `EventList.tsx` (lines 44-66): hide deleted
unless showing, search on type and category, category filter, status
filter. -/
def eventFilter (search : String) (categoryFilter : Option String)
    (statusFilter : StatusFilter) (showDeleted : Bool) (e : Event) : Bool :=
  if !showDeleted && e.is_deleted then false
  else if search != ""
      && !(containsSubstr (lowerStr search) (lowerStr e.event_type)
        || containsSubstr (lowerStr search) (lowerStr e.event_category)) then
    false
  else if (match categoryFilter with
           | some cat => e.event_category != cat
           | none => false) then false
  else if (match statusFilter with
           | .ai => !e.is_ai_generated
           | .corrected => !e.is_corrected
           | .manual => !e.is_manually_added
           | .all => false) then false
  else true

/-- Definition `filteredEvents` of `EventList.tsx`. -/
def filteredEvents (events : List Event) (search : String)
    (categoryFilter : Option String) (statusFilter : StatusFilter)
    (showDeleted : Bool) : List Event :=
  events.filter (eventFilter search categoryFilter statusFilter showDeleted)

/-- The comparator of `sortedEvents`: ascending `frame_start`. -/
def frameLe (a b : Event) : Prop :=
  a.frame_start ≤ b.frame_start

instance : DecidableRel frameLe :=
  fun a b => Nat.decLe a.frame_start b.frame_start

instance : IsTotal Event frameLe :=
  ⟨fun a b => Nat.le_total a.frame_start b.frame_start⟩

instance : IsTrans Event frameLe :=
  ⟨fun _ _ _ => Nat.le_trans⟩

/-- Definition `sortedEvents` of `EventList.tsx` (line 69): the filtered list
sorted by `frame_start` (a stable sort, as the JS array sort is). -/
def sortedEvents (events : List Event) (search : String)
    (categoryFilter : Option String) (statusFilter : StatusFilter)
    (showDeleted : Bool) : List Event :=
  List.insertionSort frameLe
    (filteredEvents events search categoryFilter statusFilter showDeleted)

/-- Definition `activeEvents` of `EventList.tsx` (line 72). -/
def activeEvents (events : List Event) : List Event :=
  events.filter fun e => !e.is_deleted

/-- Definition `correctedCount` of `EventList.tsx` (line 73). -/
def correctedCount (events : List Event) : Nat :=
  ((activeEvents events).filter fun e => e.is_corrected).length

/-- Definition `manualCount` of `EventList.tsx` (line 74). -/
def manualCount (events : List Event) : Nat :=
  ((activeEvents events).filter fun e => e.is_manually_added).length

/-- C9: with `showDeleted` false the rendered list contains no deleted
event and is sorted by ascending `frame_start`, and the corrected and
manually-added counters ignore deleted events. -/
theorem c9_eventList (events : List Event) (search : String)
    (categoryFilter : Option String) (statusFilter : StatusFilter) :
    (∀ e ∈ sortedEvents events search categoryFilter statusFilter false,
      e.is_deleted = false)
    ∧ List.Sorted frameLe
        (sortedEvents events search categoryFilter statusFilter false)
    ∧ ∀ d : Event, d.is_deleted = true →
        correctedCount (d :: events) = correctedCount events
          ∧ manualCount (d :: events) = manualCount events := by
  refine ⟨?_, ?_, ?_⟩
  · intro e he
    rw [sortedEvents, List.mem_insertionSort, filteredEvents,
      List.mem_filter] at he
    by_cases hd : e.is_deleted
    · exfalso
      have := he.2
      rw [eventFilter.eq_def] at this
      simp [hd] at this
    · simpa using hd
  · exact List.sorted_insertionSort frameLe _
  · intro d hd
    constructor
    · simp [correctedCount, activeEvents, hd]
    · simp [manualCount, activeEvents, hd]

/-- A deleted, corrected event. -/
def deletedListEvent : Event :=
  ⟨11, 50, 1, "shot", "shooting", none, none, none, none, none, none,
   false, false, false, false, true, true, true, false⟩

/-- A live pass event at a later frame. -/
def liveListEvent : Event :=
  ⟨12, 80, 1, "pass", "passing", none, none, none, none, none, none,
   false, false, false, false, true, false, false, false⟩

/-- Concrete instantiation of the EventList laws on a two-event list
with one deleted event. -/
theorem c9_eventList_witness :
    liveListEvent ∈ sortedEvents [deletedListEvent, liveListEvent] ""
        none .all false
    ∧ liveListEvent.is_deleted = false
    ∧ deletedListEvent.is_deleted = true
    ∧ correctedCount [deletedListEvent, liveListEvent]
        = correctedCount [liveListEvent] :=
  ⟨by decide,
   (c9_eventList [deletedListEvent, liveListEvent] "" none .all).1
     liveListEvent (by decide),
   by decide,
   ((c9_eventList [liveListEvent] "" none .all).2.2 deletedListEvent
     (by decide)).1⟩

/-! ## Frontend: VideoPlayer frame stepping (`VideoPlayer.tsx` 129-132) -/

/-- Definition `stepFrame` of `VideoPlayer.tsx`: clamp the stepped frame into
`[0, totalFrames - 1]`. -/
def stepFrame (totalFrames currentFrame delta : ℤ) : ℤ :=
  max 0 (min (totalFrames - 1) (currentFrame + delta))

/-- C10: for every current frame, step delta and total frame count
`n ≥ 1`, the stepped frame stays inside `[0, n-1]`. -/
theorem c10_stepFrame_bounds (n c d : ℤ) (hn : 1 ≤ n) :
    0 ≤ stepFrame n c d ∧ stepFrame n c d ≤ n - 1 := by
  unfold stepFrame
  constructor
  · exact le_max_left 0 _
  · exact max_le (by omega) (min_le_left _ _)

/-- Concrete instantiation: stepping 3 frames forward from frame 10 of
a 5-frame video clamps to frame 4. -/
theorem c10_stepFrame_bounds_witness :
    (1 : ℤ) ≤ 5 ∧ (0 ≤ stepFrame 5 10 3 ∧ stepFrame 5 10 3 ≤ 5 - 1) :=
  ⟨by decide, c10_stepFrame_bounds 5 10 3 (by decide)⟩

end FootballTracker
